import Mathlib

/-!
Verification of the trigger-windowed capture buffer of the filtered-camera
module.  The Go sources are shallowly embedded: `image_buffer/image_buffer.go`
as pure functions over an explicit `ImageBuffer` state, and the trigger policy
of `cam.go` (`shouldSend`, `classificationMatches`, `detectionMatches`) as
functions over an environment that records the configured vision services and
the (successful) results they return for the frame under evaluation.

Modelling conventions:
* `time.Time` instants are modelled as `Int` nanoseconds, with the Go zero
  time at `0`; `Before`/`After`/`Equal` become `<`/`>`/`=`, and
  `UnixNano` equality coincides with instant equality at this resolution.
* `time.Second * time.Duration(n)` is `nanosPerSecond * n`.
* `float64` confidence scores and thresholds are only ever compared with `>`
  in the source, never combined arithmetically, so they are modelled by `ℚ`
  (any linear order is a faithful model of the comparisons on non-NaN values).
* Vision-service calls can fail in the source; every failure is propagated
  immediately to the caller, and no claim under verification concerns a
  failing call, so the vision services are modelled as total result
  functions.  The underlying camera call of `images` keeps its error case.
* Log statements, the stats counters and the warning threshold have no
  effect on any claimed behaviour and are omitted.
-/

namespace FilteredCamera

/-- Instants (Go `time.Time`) are `Int` nanoseconds; `0` is Go's zero time.
`time.Second` in nanoseconds: -/
def nanosPerSecond : Int := 1000000000

/-- `camera.NamedImage`: the payload is irrelevant to every claim, only the
`SourceName` is observable (renaming).  -/
structure NamedImage where
  sourceName : String
deriving DecidableEq, Repr

/-- `resource.ResponseMetadata`. -/
structure ResponseMetadata where
  capturedAt : Int
deriving DecidableEq, Repr

/-- `imagebuffer.CachedData`. -/
structure CachedData where
  imgs : List NamedImage
  meta : ResponseMetadata
deriving DecidableEq, Repr

/-- `imagebuffer.ImageBuffer` (mutex, logger, debug flag, image frequency and
the warning threshold omitted: they influence no claimed behaviour). -/
structure ImageBuffer where
  ringBuffer : List CachedData
  toSend : List CachedData
  captureFrom : Int
  captureTill : Int
  windowSecondsBefore : Int
  windowSecondsAfter : Int
  maxImages : Int
deriving DecidableEq, Repr

/-- The buffer as returned by `NewImageBuffer`: empty ring and send queue,
zero capture window; the window durations and ring capacity are taken as
given (the float arithmetic deriving `maxImages` from the capture frequency
is outside the model, the claims treat `maxImages` as a parameter). -/
def ImageBuffer.init (windowSecondsBefore windowSecondsAfter maxImages : Int) :
    ImageBuffer :=
  { ringBuffer := []
    toSend := []
    captureFrom := 0
    captureTill := 0
    windowSecondsBefore := windowSecondsBefore
    windowSecondsAfter := windowSecondsAfter
    maxImages := maxImages }

/-- Timestamps of a list of cached batches (their dedup keys). -/
def capTimes (l : List CachedData) : List Int :=
  l.map fun c => c.meta.capturedAt

/-- `ImageBuffer.MarkShouldSend` (image_buffer.go:63).  Updates the capture
window, then backfills into `toSend` every ring-buffer batch whose timestamp
lies in the new window (inclusive) and whose timestamp is not already present
in `toSend` (the dedup set is computed from `toSend` before appending). -/
def ImageBuffer.markShouldSend (ib : ImageBuffer) (triggerTime : Int) :
    ImageBuffer :=
  let newCaptureFrom := triggerTime - nanosPerSecond * ib.windowSecondsBefore
  let newCaptureTill := triggerTime + nanosPerSecond * ib.windowSecondsAfter
  let captureFrom :=
    if ib.captureTill < triggerTime then newCaptureFrom else ib.captureFrom
  let existingTimes : List Int := ib.toSend.map fun c => c.meta.capturedAt
  let imagesToSend := ib.ringBuffer.filter fun c =>
    decide (¬ c.meta.capturedAt < captureFrom) &&
    decide (¬ newCaptureTill < c.meta.capturedAt) &&
    decide (¬ c.meta.capturedAt ∈ existingTimes)
  { ib with
      captureFrom := captureFrom
      captureTill := newCaptureTill
      toSend := ib.toSend ++ imagesToSend }

/-- The ring-insertion snippet shared verbatim by `AddToRingBuffer`
(image_buffer.go:124-129) and the ring branch of `StoreImages`
(image_buffer.go:309-314): append, then drop the oldest entries while the
ring exceeds `maxImages`. -/
def ringPush (ring : List CachedData) (x : CachedData) (mx : Int) :
    List CachedData :=
  if mx < ((ring ++ [x]).length : Int) then
    (ring ++ [x]).drop (((ring ++ [x]).length : Int) - mx).toNat
  else ring ++ [x]

/-- `ImageBuffer.AddToRingBuffer` (image_buffer.go:120). -/
def ImageBuffer.addToRingBuffer (ib : ImageBuffer) (imgs : List NamedImage)
    (meta : ResponseMetadata) : ImageBuffer :=
  { ib with ringBuffer := ringPush ib.ringBuffer ⟨imgs, meta⟩ ib.maxImages }

/-- The window test `(now.Before(captureTill) && now.After(captureFrom)) ||
now.Equal(captureTill) || now.Equal(captureFrom)` shared by
`IsWithinCaptureWindow` and `StoreImages`. -/
def windowTest (captureFrom captureTill now : Int) : Prop :=
  (now < captureTill ∧ captureFrom < now) ∨ now = captureTill ∨ now = captureFrom

instance (f t n : Int) : Decidable (windowTest f t n) := by
  unfold windowTest; infer_instance

/-- `ImageBuffer.IsWithinCaptureWindow` (image_buffer.go:267). -/
def ImageBuffer.isWithinCaptureWindow (ib : ImageBuffer) (now : Int) : Bool :=
  decide (windowTest ib.captureFrom ib.captureTill now)

/-- `ImageBuffer.StoreImages` (image_buffer.go:286): within the capture window
the batch goes straight to `toSend`, otherwise to the ring buffer (with the
same eviction as `AddToRingBuffer`). -/
def ImageBuffer.storeImages (ib : ImageBuffer) (images : List NamedImage)
    (meta : ResponseMetadata) (now : Int) : ImageBuffer :=
  if windowTest ib.captureFrom ib.captureTill now then
    { ib with toSend := ib.toSend ++ [⟨images, meta⟩] }
  else
    { ib with ringBuffer := ringPush ib.ringBuffer ⟨images, meta⟩ ib.maxImages }

/-- The timestamp prefix of `timestampImagesToNames`: Go renders an RFC3339
timestamp; only its dependence on the instant matters here, so the decimal
rendering of the instant stands in for the formatted string. -/
def timeString (t : Int) : String := toString t

def noDateString : String := "no-date"

/-- `timestampImagesToNames` (image_buffer.go:176). -/
def timestampImagesToNames (images : List NamedImage)
    (meta : ResponseMetadata) : List NamedImage :=
  images.map fun img =>
    { img with
        sourceName :=
          (if meta.capturedAt = 0 then noDateString
           else timeString meta.capturedAt) ++ "_" ++ img.sourceName }

/-- `ImageBuffer.PopFirstToSend` (image_buffer.go:148). -/
def ImageBuffer.popFirstToSend (ib : ImageBuffer) :
    Option CachedData × ImageBuffer :=
  match ib.toSend with
  | [] => (none, ib)
  | x :: rest =>
      (some { x with imgs := timestampImagesToNames x.imgs x.meta },
       { ib with toSend := rest })

/-- The running "earliest metadata" of `PopAllToSend`: the metadata of the
first batch, thereafter replaced whenever a strictly earlier one appears. -/
def earliestMetaOf (first : ResponseMetadata) (rest : List CachedData) :
    ResponseMetadata :=
  rest.foldl
    (fun acc c => if c.meta.capturedAt < acc.capturedAt then c.meta else acc)
    first

/-- `ImageBuffer.PopAllToSend` (image_buffer.go:194). -/
def ImageBuffer.popAllToSend (ib : ImageBuffer) :
    Option (List NamedImage × ResponseMetadata) × ImageBuffer :=
  match ib.toSend with
  | [] => (none, ib)
  | x :: rest =>
      let allImages :=
        (x :: rest).foldl
          (fun acc c => acc ++ timestampImagesToNames c.imgs c.meta) []
      (some (allImages, earliestMetaOf x.meta rest), { ib with toSend := [] })

/-- One producer/consumer interaction with the buffer. -/
inductive BufOp where
  | store (imgs : List NamedImage) (capturedAt : Int) (now : Int)
  | mark (triggerTime : Int)
  | addRing (imgs : List NamedImage) (capturedAt : Int)
  | popFirst
  | popAll
deriving DecidableEq, Repr

def runOp (ib : ImageBuffer) : BufOp → ImageBuffer
  | .store imgs t now => ib.storeImages imgs ⟨t⟩ now
  | .mark t => ib.markShouldSend t
  | .addRing imgs t => ib.addToRingBuffer imgs ⟨t⟩
  | .popFirst => ib.popFirstToSend.2
  | .popAll => ib.popAllToSend.2

def runOps (ib : ImageBuffer) : List BufOp → ImageBuffer
  | [] => ib
  | op :: rest => runOps (runOp ib op) rest

def BufOp.isStore : BufOp → Bool
  | .store _ _ _ => true
  | _ => false

def BufOp.isMark : BufOp → Bool
  | .mark _ => true
  | _ => false

/-- The `captured_at` arguments of the stored batches of a trace, in call
order (`StoreImages` and `AddToRingBuffer` store a batch). -/
def capturedTimes : List BufOp → List Int
  | [] => []
  | .store _ t _ :: rest => t :: capturedTimes rest
  | .addRing _ t :: rest => t :: capturedTimes rest
  | _ :: rest => capturedTimes rest

/-- A classification result (`classification.Classification`): a label and a
confidence score. -/
structure Classification where
  label : String
  score : ℚ
deriving DecidableEq, Repr

/-- A detection result (`objectdetection.Detection`); the bounding box plays
no role in the trigger policy. -/
structure Detection where
  label : String
  score : ℚ
deriving DecidableEq, Repr

/-- A Go `map[string]float64` threshold map; Go map keys are unique, so the
first matching entry of the association list is the entry. -/
abbrev ThresholdMap := List (String × ℚ)

def lookupThreshold (m : ThresholdMap) (label : String) : Option ℚ :=
  (m.find? fun p => p.1 == label).map fun p => p.2

/-- `filteredCamera.classificationMatches` (cam.go:268), specialised to the
per-service threshold map the source selects from
`inhibitedClassifications`/`acceptedClassifications`: the exact-label entry
is consulted first, and if it does not produce a match the wildcard entry
`"*"` is consulted as well; a match needs a score strictly above the
threshold. -/
def classificationMatches (thresholds : ThresholdMap) (c : Classification) :
    Bool :=
  (match lookupThreshold thresholds c.label with
   | some min => decide (min < c.score)
   | none => false) ||
  (match lookupThreshold thresholds "*" with
   | some min => decide (min < c.score)
   | none => false)

/-- `filteredCamera.detectionMatches` (cam.go:299), same shape as
`classificationMatches` over the object threshold maps. -/
def detectionMatches (thresholds : ThresholdMap) (d : Detection) : Bool :=
  (match lookupThreshold thresholds d.label with
   | some min => decide (min < d.score)
   | none => false) ||
  (match lookupThreshold thresholds "*" with
   | some min => decide (min < d.score)
   | none => false)

/-- `filteredCamera.anyClassificationsMatch` (cam.go:259): the first matching
classification, if any. -/
def anyClassificationsMatch (thresholds : ThresholdMap)
    (cs : List Classification) : Option Classification :=
  cs.find? fun c => classificationMatches thresholds c

/-- `filteredCamera.anyDetectionsMatch` (cam.go:289). -/
def anyDetectionsMatch (thresholds : ThresholdMap) (ds : List Detection) :
    Option Detection :=
  ds.find? fun d => detectionMatches thresholds d

/-- The filtered camera's trigger configuration together with the results the
vision services return for the frames under evaluation (`Classifications` and
`Detections` calls are modelled as total: no claim concerns a failing call,
which the source propagates unchanged).  Vision services are identified by
their name, as in the source's threshold maps. -/
structure FilteredCameraEnv where
  inhibitors : List String
  otherVisionServices : List String
  inhibitedClassifications : String → ThresholdMap
  inhibitedObjects : String → ThresholdMap
  acceptedClassifications : String → ThresholdMap
  acceptedObjects : String → ThresholdMap
  classifyResults : NamedImage → String → List Classification
  detectResults : NamedImage → String → List Detection

inductive QueryKind where
  | classify
  | detect
deriving DecidableEq, Repr

/-- One vision-service query issued while evaluating `shouldSend`; recorded
so that the evaluation order and short-circuiting are observable. -/
structure VisionCall where
  service : String
  kind : QueryKind
  inhibit : Bool
deriving DecidableEq, Repr

/-- The inhibitor loop of `shouldSend` (cam.go:450-480): for each inhibiting
service in order, query classifications when its classification threshold map
is non-empty and reject on a match, then likewise for detections.  `.inl log`
means an inhibitor rejected the frame, `.inr log` means the loop fell
through; the log records every vision-service query made. -/
def runInhibitors (env : FilteredCameraEnv) (img : NamedImage) :
    List String → List VisionCall → List VisionCall ⊕ List VisionCall
  | [], log => .inr log
  | vs :: rest, log =>
      let log1 :=
        if (env.inhibitedClassifications vs).isEmpty then log
        else log ++ [⟨vs, .classify, true⟩]
      if ¬ (env.inhibitedClassifications vs).isEmpty ∧
          (anyClassificationsMatch (env.inhibitedClassifications vs)
            (env.classifyResults img vs)).isSome then
        .inl log1
      else
        let log2 :=
          if (env.inhibitedObjects vs).isEmpty then log1
          else log1 ++ [⟨vs, .detect, true⟩]
        if ¬ (env.inhibitedObjects vs).isEmpty ∧
            (anyDetectionsMatch (env.inhibitedObjects vs)
              (env.detectResults img vs)).isSome then
          .inl log2
        else
          runInhibitors env img rest log2

/-- The acceptor loop of `shouldSend` (cam.go:482-512): for each
non-inhibiting service in order, accept on the first classification or
detection match.  `.inl log` means the frame was accepted. -/
def runAcceptors (env : FilteredCameraEnv) (img : NamedImage) :
    List String → List VisionCall → List VisionCall ⊕ List VisionCall
  | [], log => .inr log
  | vs :: rest, log =>
      let log1 :=
        if (env.acceptedClassifications vs).isEmpty then log
        else log ++ [⟨vs, .classify, false⟩]
      if ¬ (env.acceptedClassifications vs).isEmpty ∧
          (anyClassificationsMatch (env.acceptedClassifications vs)
            (env.classifyResults img vs)).isSome then
        .inl log1
      else
        let log2 :=
          if (env.acceptedObjects vs).isEmpty then log1
          else log1 ++ [⟨vs, .detect, false⟩]
        if ¬ (env.acceptedObjects vs).isEmpty ∧
            (anyDetectionsMatch (env.acceptedObjects vs)
              (env.detectResults img vs)).isSome then
          .inl log2
        else
          runAcceptors env img rest log2

/-- `filteredCamera.shouldSend` (cam.go:444): inhibitors first (a match
rejects), then acceptors (a match accepts); with no acceptor configured the
default is to accept, otherwise to reject.  The second component is the list
of vision-service queries issued, in order.  The `now` argument is unused by
the source's body and kept for signature fidelity. -/
def shouldSend (env : FilteredCameraEnv) (img : NamedImage) (now : Int) :
    Bool × List VisionCall :=
  match runInhibitors env img env.inhibitors [] with
  | .inl log => (false, log)
  | .inr log =>
      match runAcceptors env img env.otherVisionServices log with
      | .inl log2 => (true, log2)
      | .inr log2 =>
          if env.otherVisionServices.isEmpty then (true, log2)
          else (false, log2)

/-- An inhibiting service `vs` matches the frame: its classification
thresholds match one of the service's classification results, or its object
thresholds match one of its detection results.  (A match forces the relevant
threshold map to be non-empty, so the source's emptiness guards are implied.) -/
def inhibitorMatches (env : FilteredCameraEnv) (img : NamedImage)
    (vs : String) : Prop :=
  (anyClassificationsMatch (env.inhibitedClassifications vs)
    (env.classifyResults img vs)).isSome ∨
  (anyDetectionsMatch (env.inhibitedObjects vs)
    (env.detectResults img vs)).isSome

instance (env : FilteredCameraEnv) (img : NamedImage) (vs : String) :
    Decidable (inhibitorMatches env img vs) := by
  unfold inhibitorMatches; infer_instance

/-- `IsFromDataMgmt` (common.go:14): the context marks the request as coming
from the data manager, or the `extra` map does. -/
def IsFromDataMgmt (ctxFromDM extraFromDM : Bool) : Bool :=
  ctxFromDM || extraFromDM

/-- Errors `images` can return. -/
inductive ImagesError where
  | underlying (msg : String)
  | noCaptureToStore
deriving DecidableEq, Repr

/-- `filteredCamera.getBufferedImages` (cam.go:361). -/
def getBufferedImages (ib : ImageBuffer) (singleImageMode : Bool) :
    Option (List NamedImage × ResponseMetadata) × ImageBuffer :=
  if singleImageMode then
    match ib.popFirstToSend with
    | (some x, ib2) => (some (x.imgs, x.meta), ib2)
    | (none, ib2) => (none, ib2)
  else
    match ib.popAllToSend with
    | (some r, ib2) => (some r, ib2)
    | (none, ib2) => (none, ib2)

/-- `filteredCamera.images` (cam.go:378), with the underlying camera's reply
passed in as `camResult`.  Returns the reply to the caller together with the
buffer state after the call.  On an underlying error the source returns that
error; requests not from the data manager are answered directly with the
fresh images; within an active capture window buffered images (or the
timestamped fresh images) are returned; otherwise the trigger policy runs on
each fresh image in order and the first accepted image opens/extends the
window. -/
def images (env : FilteredCameraEnv) (ib : ImageBuffer)
    (ctxFromDM extraFromDM : Bool) (singleImageMode : Bool)
    (camResult : Except String (List NamedImage × ResponseMetadata)) :
    Except ImagesError (List NamedImage × ResponseMetadata) × ImageBuffer :=
  match camResult with
  | .error e => (.error (.underlying e), ib)
  | .ok (imgs, meta) =>
      if IsFromDataMgmt ctxFromDM extraFromDM = false then
        (.ok (imgs, meta), ib)
      else
        if ib.isWithinCaptureWindow meta.capturedAt then
          match getBufferedImages ib singleImageMode with
          | (some r, ib2) => (.ok r, ib2)
          | (none, ib2) => (.ok (timestampImagesToNames imgs meta, meta), ib2)
        else
          match imgs.find? fun img => (shouldSend env img meta.capturedAt).1 with
          | some _ =>
              let ib2 := ib.markShouldSend meta.capturedAt
              match getBufferedImages ib2 singleImageMode with
              | (some r, ib3) => (.ok r, ib3)
              | (none, ib3) => (.error .noCaptureToStore, ib3)
          | none =>
              match getBufferedImages ib singleImageMode with
              | (some r, ib2) => (.ok r, ib2)
              | (none, ib2) => (.error .noCaptureToStore, ib2)

def BufOp.isAddRing : BufOp → Bool
  | .addRing _ _ => true
  | _ => false

/-- The window bounds `MarkShouldSend` installs: the left bound is replaced
only when the old window had expired, the right bound unconditionally. -/
def newFrom (ib : ImageBuffer) (t : Int) : Int :=
  if ib.captureTill < t then t - nanosPerSecond * ib.windowSecondsBefore
  else ib.captureFrom

def newTill (ib : ImageBuffer) (t : Int) : Int :=
  t + nanosPerSecond * ib.windowSecondsAfter

/-- The batches `MarkShouldSend` backfills from the ring buffer: timestamp
within the updated window (inclusive) and not already in `toSend`. -/
def backfill (ib : ImageBuffer) (t : Int) : List CachedData :=
  ib.ringBuffer.filter fun c =>
    decide (¬ c.meta.capturedAt < newFrom ib t) &&
    decide (¬ newTill ib t < c.meta.capturedAt) &&
    decide (¬ c.meta.capturedAt ∈ ib.toSend.map fun c => c.meta.capturedAt)

/-- The `captured_at` arguments of the stored batches of a trace are strictly
increasing, every one strictly above the anchor `lo`. -/
def CapturedIncrFrom : Int → List BufOp → Prop
  | _, [] => True
  | lo, .store _ t _ :: rest => lo < t ∧ CapturedIncrFrom t rest
  | lo, .addRing _ t :: rest => lo < t ∧ CapturedIncrFrom t rest
  | lo, .mark _ :: rest => CapturedIncrFrom lo rest
  | lo, .popFirst :: rest => CapturedIncrFrom lo rest
  | lo, .popAll :: rest => CapturedIncrFrom lo rest

/-- A trace of `StoreImages` and `MarkShouldSend` calls only (the operations
claim C3 ranges over), whose time arguments are non-decreasing and at least
`lo`, each `StoreImages` call receiving its batch's `captured_at` as `now`
(as the background capture worker does, cam.go:331). -/
def TimesMonoFrom : Int → List BufOp → Prop
  | _, [] => True
  | lo, .store _ t now :: rest => now = t ∧ lo ≤ t ∧ TimesMonoFrom t rest
  | lo, .mark t :: rest => lo ≤ t ∧ TimesMonoFrom t rest
  | _, .addRing _ _ :: _ => False
  | _, .popFirst :: _ => False
  | _, .popAll :: _ => False

/-- The trigger times of the `MarkShouldSend` calls of a trace are
non-decreasing and at least `lo`; the other operations are unrestricted. -/
def MarkTimesMonoFrom : Int → List BufOp → Prop
  | _, [] => True
  | lo, .mark t :: rest => lo ≤ t ∧ MarkTimesMonoFrom t rest
  | lo, .store _ _ _ :: rest => MarkTimesMonoFrom lo rest
  | lo, .addRing _ _ :: rest => MarkTimesMonoFrom lo rest
  | lo, .popFirst :: rest => MarkTimesMonoFrom lo rest
  | lo, .popAll :: rest => MarkTimesMonoFrom lo rest

instance decCapturedIncrFrom :
    (lo : Int) → (ops : List BufOp) → Decidable (CapturedIncrFrom lo ops)
  | _, [] => isTrue trivial
  | lo, .store _ t _ :: rest =>
      haveI := decCapturedIncrFrom t rest
      inferInstanceAs (Decidable (lo < t ∧ CapturedIncrFrom t rest))
  | lo, .addRing _ t :: rest =>
      haveI := decCapturedIncrFrom t rest
      inferInstanceAs (Decidable (lo < t ∧ CapturedIncrFrom t rest))
  | lo, .mark _ :: rest => decCapturedIncrFrom lo rest
  | lo, .popFirst :: rest => decCapturedIncrFrom lo rest
  | lo, .popAll :: rest => decCapturedIncrFrom lo rest

instance decTimesMonoFrom :
    (lo : Int) → (ops : List BufOp) → Decidable (TimesMonoFrom lo ops)
  | _, [] => isTrue trivial
  | lo, .store _ t now :: rest =>
      haveI := decTimesMonoFrom t rest
      inferInstanceAs (Decidable (now = t ∧ lo ≤ t ∧ TimesMonoFrom t rest))
  | lo, .mark t :: rest =>
      haveI := decTimesMonoFrom t rest
      inferInstanceAs (Decidable (lo ≤ t ∧ TimesMonoFrom t rest))
  | _, .addRing _ _ :: _ => isFalse fun h => h
  | _, .popFirst :: _ => isFalse fun h => h
  | _, .popAll :: _ => isFalse fun h => h

instance decMarkTimesMonoFrom :
    (lo : Int) → (ops : List BufOp) → Decidable (MarkTimesMonoFrom lo ops)
  | _, [] => isTrue trivial
  | lo, .mark t :: rest =>
      haveI := decMarkTimesMonoFrom t rest
      inferInstanceAs (Decidable (lo ≤ t ∧ MarkTimesMonoFrom t rest))
  | lo, .store _ _ _ :: rest => decMarkTimesMonoFrom lo rest
  | lo, .addRing _ _ :: rest => decMarkTimesMonoFrom lo rest
  | lo, .popFirst :: rest => decMarkTimesMonoFrom lo rest
  | lo, .popAll :: rest => decMarkTimesMonoFrom lo rest

/-- Invariant for the dedup property (claim C2): both buffers hold distinct
timestamps, all at most the anchor `lo` (the last stored `captured_at`). -/
structure DedupInv (ib : ImageBuffer) (lo : Int) : Prop where
  ringNodup : (capTimes ib.ringBuffer).Nodup
  sendNodup : (capTimes ib.toSend).Nodup
  ringLe : ∀ x ∈ capTimes ib.ringBuffer, x ≤ lo
  sendLe : ∀ x ∈ capTimes ib.toSend, x ≤ lo

/-- Invariant for the window-bounds property (claim C9). -/
structure WindowInv (ib : ImageBuffer) (lo : Int) : Prop where
  loNonneg : 0 ≤ lo
  wsbNonneg : 0 ≤ ib.windowSecondsBefore
  wsaNonneg : 0 ≤ ib.windowSecondsAfter
  fromTill : ib.captureFrom ≤ ib.captureTill
  fromLo : ib.captureFrom ≤ lo

/-- Invariant for the ordering property (claim C3), anchored at `lo`, the
largest time argument seen so far. -/
structure OrderInv (ib : ImageBuffer) (lo : Int) : Prop where
  loNonneg : 0 ≤ lo
  wsbNonneg : 0 ≤ ib.windowSecondsBefore
  wsaNonneg : 0 ≤ ib.windowSecondsAfter
  fromTill : ib.captureFrom ≤ ib.captureTill
  fromAnchor : ib.captureFrom ≤ 0 ∨
    ib.captureFrom + nanosPerSecond * ib.windowSecondsBefore ≤ lo
  ringSorted : (capTimes ib.ringBuffer).Pairwise (· ≤ ·)
  sendSorted : (capTimes ib.toSend).Pairwise (· ≤ ·)
  ringBounds : ∀ x ∈ capTimes ib.ringBuffer, 0 ≤ x ∧ x ≤ lo
  sendBounds : ∀ x ∈ capTimes ib.toSend, 0 ≤ x ∧ x ≤ lo
  sendTill : ∀ x ∈ capTimes ib.toSend, x ≤ ib.captureTill
  ringWindow : ∀ x ∈ capTimes ib.ringBuffer, x ∉ capTimes ib.toSend →
    ¬ (ib.captureFrom ≤ x ∧ x ≤ ib.captureTill)

/-- A concrete trigger environment: one inhibitor with classification
threshold 70 for label `"x"`, one acceptor with threshold 60 for the same
label, and a frame scoring 75 (the spec's §8 inhibitor-priority scenario,
scores scaled by 100). -/
def sampleEnv : FilteredCameraEnv where
  inhibitors := ["inhibitor"]
  otherVisionServices := ["acceptor"]
  inhibitedClassifications := fun s =>
    if s = "inhibitor" then [("x", 70)] else []
  inhibitedObjects := fun _ => []
  acceptedClassifications := fun s =>
    if s = "acceptor" then [("x", 60)] else []
  acceptedObjects := fun _ => []
  classifyResults := fun _ _ => [⟨"x", 75⟩]
  detectResults := fun _ _ => []

/-- `sampleEnv` with no acceptors and an inhibitor threshold the frame does
not reach. -/
def sampleEnvNoAcceptors : FilteredCameraEnv :=
  { sampleEnv with
      otherVisionServices := []
      inhibitedClassifications := fun s =>
        if s = "inhibitor" then [("x", 90)] else [] }

lemma markShouldSend_eq (ib : ImageBuffer) (t : Int) :
    ib.markShouldSend t =
      { ib with
          captureFrom := newFrom ib t
          captureTill := newTill ib t
          toSend := ib.toSend ++ backfill ib t } := rfl

lemma nanosPerSecond_pos : (0 : Int) < nanosPerSecond := by
  norm_num [nanosPerSecond]

lemma mem_capTimes {x : Int} {l : List CachedData} :
    x ∈ capTimes l ↔ ∃ c ∈ l, c.meta.capturedAt = x := by
  simp [capTimes]

lemma capTimes_append (l₁ l₂ : List CachedData) :
    capTimes (l₁ ++ l₂) = capTimes l₁ ++ capTimes l₂ := by
  simp [capTimes]

lemma capTimes_backfill_sublist (ib : ImageBuffer) (t : Int) :
    (capTimes (backfill ib t)).Sublist (capTimes ib.ringBuffer) :=
  List.Sublist.map _ (List.filter_sublist _)

lemma mem_backfill {ib : ImageBuffer} {t : Int} {c : CachedData} :
    c ∈ backfill ib t ↔
      c ∈ ib.ringBuffer ∧ newFrom ib t ≤ c.meta.capturedAt ∧
      c.meta.capturedAt ≤ newTill ib t ∧
      c.meta.capturedAt ∉ capTimes ib.toSend := by
  simp only [backfill, List.mem_filter, Bool.and_eq_true, decide_eq_true_eq,
    not_lt, capTimes, and_assoc]

lemma popFirstToSend_snd_eq (ib : ImageBuffer) :
    ib.popFirstToSend.2 = { ib with toSend := ib.toSend.tail } := by
  rcases ib with ⟨ring, ts, f, t, b, a, m⟩
  cases ts <;> rfl

lemma popAllToSend_snd_eq (ib : ImageBuffer) :
    ib.popAllToSend.2 = { ib with toSend := [] } := by
  rcases ib with ⟨ring, ts, f, t, b, a, m⟩
  cases ts <;> rfl

lemma storeImages_within {ib : ImageBuffer} {imgs : List NamedImage}
    {meta : ResponseMetadata} {now : Int}
    (h : windowTest ib.captureFrom ib.captureTill now) :
    ib.storeImages imgs meta now =
      { ib with toSend := ib.toSend ++ [⟨imgs, meta⟩] } := by
  simp [ImageBuffer.storeImages, h]

lemma storeImages_outside {ib : ImageBuffer} {imgs : List NamedImage}
    {meta : ResponseMetadata} {now : Int}
    (h : ¬ windowTest ib.captureFrom ib.captureTill now) :
    ib.storeImages imgs meta now =
      { ib with
          ringBuffer := ringPush ib.ringBuffer ⟨imgs, meta⟩ ib.maxImages } := by
  simp [ImageBuffer.storeImages, h]

lemma ringPush_isSuffix (ring : List CachedData) (x : CachedData) (mx : Int) :
    (ringPush ring x mx).IsSuffix (ring ++ [x]) := by
  unfold ringPush
  split
  · exact List.drop_suffix _ _
  · exact List.suffix_rfl

lemma ringPush_length_le {ring : List CachedData} {mx : Int}
    (x : CachedData) (h : (ring.length : Int) ≤ mx) :
    ((ringPush ring x mx).length : Int) ≤ mx := by
  unfold ringPush
  split <;> simp_all [List.length_drop] <;> omega

/-- The configuration fields are untouched by every buffer operation. -/
lemma runOp_config (ib : ImageBuffer) (op : BufOp) :
    (runOp ib op).maxImages = ib.maxImages ∧
    (runOp ib op).windowSecondsBefore = ib.windowSecondsBefore ∧
    (runOp ib op).windowSecondsAfter = ib.windowSecondsAfter := by
  cases op with
  | store imgs t now =>
      by_cases h : windowTest ib.captureFrom ib.captureTill t
      all_goals simp [runOp, ImageBuffer.storeImages]
      all_goals split <;> exact ⟨rfl, rfl, rfl⟩
  | mark t => exact ⟨rfl, rfl, rfl⟩
  | addRing imgs t => exact ⟨rfl, rfl, rfl⟩
  | popFirst => rw [runOp, popFirstToSend_snd_eq]; exact ⟨rfl, rfl, rfl⟩
  | popAll => rw [runOp, popAllToSend_snd_eq]; exact ⟨rfl, rfl, rfl⟩

lemma runOp_ring_length {ib : ImageBuffer} (op : BufOp)
    (h : (ib.ringBuffer.length : Int) ≤ ib.maxImages) :
    ((runOp ib op).ringBuffer.length : Int) ≤ (runOp ib op).maxImages := by
  rw [(runOp_config ib op).1]
  cases op with
  | store imgs t now =>
      by_cases hw : windowTest ib.captureFrom ib.captureTill now
      · rw [runOp, storeImages_within hw]; exact h
      · rw [runOp, storeImages_outside hw]; exact ringPush_length_le _ h
  | mark t => exact h
  | addRing imgs t => exact ringPush_length_le _ h
  | popFirst => rw [runOp, popFirstToSend_snd_eq]; exact h
  | popAll => rw [runOp, popAllToSend_snd_eq]; exact h

lemma runOps_config (ops : List BufOp) :
    ∀ ib : ImageBuffer,
      (runOps ib ops).maxImages = ib.maxImages ∧
      (runOps ib ops).windowSecondsBefore = ib.windowSecondsBefore ∧
      (runOps ib ops).windowSecondsAfter = ib.windowSecondsAfter := by
  induction ops with
  | nil => exact fun ib => ⟨rfl, rfl, rfl⟩
  | cons op rest ih =>
      intro ib
      obtain ⟨h1, h2, h3⟩ := ih (runOp ib op)
      obtain ⟨g1, g2, g3⟩ := runOp_config ib op
      exact ⟨h1.trans g1, h2.trans g2, h3.trans g3⟩

lemma runOps_ring_length (ops : List BufOp) :
    ∀ ib : ImageBuffer, (ib.ringBuffer.length : Int) ≤ ib.maxImages →
      ((runOps ib ops).ringBuffer.length : Int) ≤ (runOps ib ops).maxImages := by
  induction ops with
  | nil => intro ib h; exact h
  | cons op rest ih =>
      intro ib h
      exact ih (runOp ib op) (runOp_ring_length op h)

/-- C4: starting from an empty buffer with non-negative capacity
`maxImages`, every trace of `AddToRingBuffer` and `StoreImages` calls leaves
at most `maxImages` batches in the ring buffer; and a ring insertion only
ever removes entries from the front of the ring (the oldest ones), the
result being a suffix of the old ring with the new batch appended. -/
theorem ringBuffer_bounded (wsb wsa mx : Int) (hmx : 0 ≤ mx) :
    (∀ ops : List BufOp, (∀ op ∈ ops, op.isAddRing ∨ op.isStore) →
      (((runOps (ImageBuffer.init wsb wsa mx) ops).ringBuffer.length : Int) ≤
        mx)) ∧
    (∀ (ib : ImageBuffer) (imgs : List NamedImage) (meta : ResponseMetadata),
      ((ib.addToRingBuffer imgs meta).ringBuffer).IsSuffix
        (ib.ringBuffer ++ [⟨imgs, meta⟩])) ∧
    (∀ (ib : ImageBuffer) (imgs : List NamedImage) (meta : ResponseMetadata)
        (now : Int), ¬ windowTest ib.captureFrom ib.captureTill now →
      ((ib.storeImages imgs meta now).ringBuffer).IsSuffix
        (ib.ringBuffer ++ [⟨imgs, meta⟩])) := by
  refine ⟨fun ops _ => ?_, fun ib imgs meta => ?_, fun ib imgs meta now hw => ?_⟩
  · have h0 : (((ImageBuffer.init wsb wsa mx).ringBuffer.length : Int) ≤
        (ImageBuffer.init wsb wsa mx).maxImages) := by
      simpa [ImageBuffer.init] using hmx
    have h1 := runOps_ring_length ops (ImageBuffer.init wsb wsa mx) h0
    have h2 := (runOps_config ops (ImageBuffer.init wsb wsa mx)).1
    rw [h2] at h1
    simpa [ImageBuffer.init] using h1
  · exact ringPush_isSuffix _ _ _
  · rw [storeImages_outside hw]; exact ringPush_isSuffix _ _ _

/-- Witness for `ringBuffer_bounded`: three insertions into a ring of
capacity 2 leave at most 2 batches. -/
theorem ringBuffer_bounded_witness :
    (0 : Int) ≤ 2 ∧
    (((runOps (ImageBuffer.init 1 1 2)
          [.addRing [] 1, .addRing [] 2, .addRing [] 3]).ringBuffer.length :
        Int) ≤ 2) :=
  ⟨by decide, (ringBuffer_bounded 1 1 2 (by decide)).1
    [.addRing [] 1, .addRing [] 2, .addRing [] 3] (by decide)⟩

lemma markShouldSend_window_inv {ib : ImageBuffer} {lo t : Int}
    (inv : WindowInv ib lo) (ht : lo ≤ t) :
    WindowInv (ib.markShouldSend t) t := by
  have hb : 0 ≤ nanosPerSecond * ib.windowSecondsBefore :=
    mul_nonneg (le_of_lt nanosPerSecond_pos) inv.wsbNonneg
  have ha : 0 ≤ nanosPerSecond * ib.windowSecondsAfter :=
    mul_nonneg (le_of_lt nanosPerSecond_pos) inv.wsaNonneg
  have h1 := inv.loNonneg
  have h2 := inv.fromTill
  have h3 := inv.fromLo
  refine ⟨by omega, ?_, ?_, ?_, ?_⟩
  · exact inv.wsbNonneg
  · exact inv.wsaNonneg
  · rw [markShouldSend_eq]
    simp only [newFrom, newTill]
    split <;> omega
  · rw [markShouldSend_eq]
    simp only [newFrom, newTill]
    split <;> omega

lemma runOp_window_inv {ib : ImageBuffer} {lo : Int} (op : BufOp)
    (inv : WindowInv ib lo) :
    ∀ lo', (match op with
            | .mark t => lo ≤ t ∧ lo' = t
            | _ => lo' = lo) →
      WindowInv (runOp ib op) lo' := by
  intro lo' h
  cases op with
  | mark t =>
      obtain ⟨ht, rfl⟩ := h
      exact markShouldSend_window_inv inv ht
  | store imgs t now =>
      subst h
      by_cases hw : windowTest ib.captureFrom ib.captureTill now
      · rw [runOp, storeImages_within hw]
        exact ⟨inv.loNonneg, inv.wsbNonneg, inv.wsaNonneg, inv.fromTill,
          inv.fromLo⟩
      · rw [runOp, storeImages_outside hw]
        exact ⟨inv.loNonneg, inv.wsbNonneg, inv.wsaNonneg, inv.fromTill,
          inv.fromLo⟩
  | addRing imgs t =>
      subst h
      exact ⟨inv.loNonneg, inv.wsbNonneg, inv.wsaNonneg, inv.fromTill,
        inv.fromLo⟩
  | popFirst =>
      subst h
      rw [runOp, popFirstToSend_snd_eq]
      exact ⟨inv.loNonneg, inv.wsbNonneg, inv.wsaNonneg, inv.fromTill,
        inv.fromLo⟩
  | popAll =>
      subst h
      rw [runOp, popAllToSend_snd_eq]
      exact ⟨inv.loNonneg, inv.wsbNonneg, inv.wsaNonneg, inv.fromTill,
        inv.fromLo⟩

lemma runOps_window_inv (ops : List BufOp) :
    ∀ (ib : ImageBuffer) (lo : Int), WindowInv ib lo →
      MarkTimesMonoFrom lo ops →
      ∃ lo', WindowInv (runOps ib ops) lo' := by
  induction ops with
  | nil => exact fun ib lo inv _ => ⟨lo, inv⟩
  | cons op rest ih =>
      intro ib lo inv hmono
      cases op with
      | mark t =>
          obtain ⟨ht, hrest⟩ := hmono
          exact ih _ t (runOp_window_inv _ inv t ⟨ht, rfl⟩) hrest
      | store imgs t now =>
          exact ih _ lo (runOp_window_inv _ inv lo rfl) hmono
      | addRing imgs t =>
          exact ih _ lo (runOp_window_inv _ inv lo rfl) hmono
      | popFirst => exact ih _ lo (runOp_window_inv _ inv lo rfl) hmono
      | popAll => exact ih _ lo (runOp_window_inv _ inv lo rfl) hmono

/-- C9 (counterexample): with `before = 0s, after = 1s`, triggers at `100s`
then `5s` (arbitrary, non-monotone trigger times as the claim allows) leave
`captureFrom = 100s > captureTill = 6s`: the invariant
`captureFrom ≤ captureTill` is not preserved for arbitrary trigger times. -/
theorem captureWindow_inv_counterexample :
    ¬ (((ImageBuffer.init 0 1 10).markShouldSend
          (100 * nanosPerSecond)).markShouldSend
        (5 * nanosPerSecond)).captureFrom ≤
      (((ImageBuffer.init 0 1 10).markShouldSend
          (100 * nanosPerSecond)).markShouldSend
        (5 * nanosPerSecond)).captureTill := by
  decide

/-- C9 (amended): starting from the initial buffer state (both window bounds
zero), every trace of `MarkShouldSend`, `StoreImages`, `AddToRingBuffer` and
pop operations whose trigger times are non-decreasing and non-negative (and
with non-negative configured window durations) preserves
`captureFrom ≤ captureTill`. -/
theorem captureWindow_invariant (wsb wsa mx : Int) (hb : 0 ≤ wsb)
    (ha : 0 ≤ wsa) (ops : List BufOp)
    (hmono : MarkTimesMonoFrom 0 ops) :
    (runOps (ImageBuffer.init wsb wsa mx) ops).captureFrom ≤
      (runOps (ImageBuffer.init wsb wsa mx) ops).captureTill := by
  have inv0 : WindowInv (ImageBuffer.init wsb wsa mx) 0 :=
    ⟨le_refl 0, hb, ha, le_refl 0, le_refl 0⟩
  obtain ⟨lo', inv'⟩ :=
    runOps_window_inv ops (ImageBuffer.init wsb wsa mx) 0 inv0 hmono
  exact inv'.fromTill

/-- Witness for `captureWindow_invariant`: a trigger at `1s` followed by a
store at `1.5s` keeps `captureFrom ≤ captureTill`. -/
theorem captureWindow_invariant_witness :
    ((0 : Int) ≤ 1 ∧ (0 : Int) ≤ 1 ∧
      MarkTimesMonoFrom 0 [.mark (1 * nanosPerSecond),
        .store [] (1500000000 : Int) (1500000000 : Int)]) ∧
    (runOps (ImageBuffer.init 1 1 10)
        [.mark (1 * nanosPerSecond),
         .store [] (1500000000 : Int) (1500000000 : Int)]).captureFrom ≤
      (runOps (ImageBuffer.init 1 1 10)
        [.mark (1 * nanosPerSecond),
         .store [] (1500000000 : Int) (1500000000 : Int)]).captureTill :=
  ⟨⟨by decide, by decide, by decide⟩,
    captureWindow_invariant 1 1 10 (by decide) (by decide) _ (by decide)⟩

lemma ringPush_sublist (ring : List CachedData) (x : CachedData) (mx : Int) :
    (ringPush ring x mx).Sublist (ring ++ [x]) :=
  (ringPush_isSuffix ring x mx).sublist

lemma dedupInv_mark {ib : ImageBuffer} {lo : Int} (t : Int)
    (inv : DedupInv ib lo) : DedupInv (ib.markShouldSend t) lo := by
  rw [markShouldSend_eq]
  refine ⟨inv.ringNodup, ?_, inv.ringLe, ?_⟩
  · show (capTimes (ib.toSend ++ backfill ib t)).Nodup
    rw [capTimes_append, List.nodup_append]
    refine ⟨inv.sendNodup,
      List.Nodup.sublist (capTimes_backfill_sublist ib t) inv.ringNodup, ?_⟩
    intro x hx hx'
    obtain ⟨c, hc, rfl⟩ := mem_capTimes.mp hx'
    exact (mem_backfill.mp hc).2.2.2 hx
  · show ∀ x ∈ capTimes (ib.toSend ++ backfill ib t), x ≤ lo
    rw [capTimes_append]
    intro x hx
    rcases List.mem_append.mp hx with h | h
    · exact inv.sendLe x h
    · obtain ⟨c, hc, rfl⟩ := mem_capTimes.mp h
      exact inv.ringLe _ (mem_capTimes.mpr ⟨c, (mem_backfill.mp hc).1, rfl⟩)

lemma dedupInv_ringPush {ib : ImageBuffer} {lo : Int} {imgs : List NamedImage}
    {t : Int} (hlt : lo < t) (inv : DedupInv ib lo) :
    (capTimes (ringPush ib.ringBuffer ⟨imgs, ⟨t⟩⟩ ib.maxImages)).Nodup ∧
    ∀ x ∈ capTimes (ringPush ib.ringBuffer ⟨imgs, ⟨t⟩⟩ ib.maxImages), x ≤ t := by
  have hsub : (capTimes (ringPush ib.ringBuffer ⟨imgs, ⟨t⟩⟩ ib.maxImages)).Sublist
      (capTimes (ib.ringBuffer ++ [⟨imgs, ⟨t⟩⟩])) :=
    List.Sublist.map _ (ringPush_sublist _ _ _)
  have hnodup : (capTimes (ib.ringBuffer ++ [⟨imgs, ⟨t⟩⟩])).Nodup := by
    rw [capTimes_append, List.nodup_append]
    refine ⟨inv.ringNodup, List.nodup_singleton _, ?_⟩
    intro x hx hx'
    simp only [capTimes, List.map_cons, List.map_nil, List.mem_singleton] at hx'
    subst hx'
    exact absurd (inv.ringLe _ hx) (by omega)
  refine ⟨List.Nodup.sublist hsub hnodup, ?_⟩
  intro x hx
  have hx' := hsub.mem hx
  rw [capTimes_append] at hx'
  rcases List.mem_append.mp hx' with h | h
  · exact le_of_lt (lt_of_le_of_lt (inv.ringLe x h) hlt)
  · simp only [capTimes, List.map_cons, List.map_nil, List.mem_singleton] at h
    omega

lemma dedupInv_store {ib : ImageBuffer} {lo : Int} (imgs : List NamedImage)
    {t : Int} (now : Int) (hlt : lo < t) (inv : DedupInv ib lo) :
    DedupInv (ib.storeImages imgs ⟨t⟩ now) t := by
  by_cases hw : windowTest ib.captureFrom ib.captureTill now
  · rw [storeImages_within hw]
    refine ⟨inv.ringNodup, ?_, ?_, ?_⟩
    · show (capTimes (ib.toSend ++ [⟨imgs, ⟨t⟩⟩])).Nodup
      rw [capTimes_append, List.nodup_append]
      refine ⟨inv.sendNodup, List.nodup_singleton _, ?_⟩
      intro x hx hx'
      simp only [capTimes, List.map_cons, List.map_nil,
        List.mem_singleton] at hx'
      subst hx'
      exact absurd (inv.sendLe _ hx) (by omega)
    · exact fun x hx => le_of_lt (lt_of_le_of_lt (inv.ringLe x hx) hlt)
    · show ∀ x ∈ capTimes (ib.toSend ++ [⟨imgs, ⟨t⟩⟩]), x ≤ t
      rw [capTimes_append]
      intro x hx
      rcases List.mem_append.mp hx with h | h
      · exact le_of_lt (lt_of_le_of_lt (inv.sendLe x h) hlt)
      · simp only [capTimes, List.map_cons, List.map_nil,
          List.mem_singleton] at h
        omega
  · rw [storeImages_outside hw]
    obtain ⟨h1, h2⟩ := dedupInv_ringPush hlt inv
    exact ⟨h1, inv.sendNodup, h2,
      fun x hx => le_of_lt (lt_of_le_of_lt (inv.sendLe x hx) hlt)⟩

lemma dedupInv_addRing {ib : ImageBuffer} {lo : Int} (imgs : List NamedImage)
    {t : Int} (hlt : lo < t) (inv : DedupInv ib lo) :
    DedupInv (ib.addToRingBuffer imgs ⟨t⟩) t := by
  obtain ⟨h1, h2⟩ := dedupInv_ringPush hlt inv
  exact ⟨h1, inv.sendNodup, h2,
    fun x hx => le_of_lt (lt_of_le_of_lt (inv.sendLe x hx) hlt)⟩

lemma dedupInv_popFirst {ib : ImageBuffer} {lo : Int} (inv : DedupInv ib lo) :
    DedupInv ib.popFirstToSend.2 lo := by
  rw [popFirstToSend_snd_eq]
  have hsub : (capTimes ib.toSend.tail).Sublist (capTimes ib.toSend) :=
    List.Sublist.map _ (List.tail_sublist _)
  exact ⟨inv.ringNodup, List.Nodup.sublist hsub inv.sendNodup, inv.ringLe,
    fun x hx => inv.sendLe x (hsub.mem hx)⟩

lemma dedupInv_popAll {ib : ImageBuffer} {lo : Int} (inv : DedupInv ib lo) :
    DedupInv ib.popAllToSend.2 lo := by
  rw [popAllToSend_snd_eq]
  exact ⟨inv.ringNodup, List.nodup_nil, inv.ringLe, by simp [capTimes]⟩

lemma dedupInv_run (ops : List BufOp) :
    ∀ (ib : ImageBuffer) (lo : Int), DedupInv ib lo →
      CapturedIncrFrom lo ops → ∃ lo', DedupInv (runOps ib ops) lo' := by
  induction ops with
  | nil => exact fun ib lo inv _ => ⟨lo, inv⟩
  | cons op rest ih =>
      intro ib lo inv hincr
      cases op with
      | store imgs t now =>
          obtain ⟨hlt, hrest⟩ := hincr
          exact ih _ t (dedupInv_store imgs now hlt inv) hrest
      | mark t => exact ih _ lo (dedupInv_mark t inv) hincr
      | addRing imgs t =>
          obtain ⟨hlt, hrest⟩ := hincr
          exact ih _ t (dedupInv_addRing imgs hlt inv) hrest
      | popFirst => exact ih _ lo (dedupInv_popFirst inv) hincr
      | popAll => exact ih _ lo (dedupInv_popAll inv) hincr

lemma capturedIncrFrom_of_chain (ops : List BufOp) :
    ∀ lo : Int, List.Chain' (· < ·) (capturedTimes ops) →
      (∀ t ∈ (capturedTimes ops).head?, lo < t) → CapturedIncrFrom lo ops := by
  induction ops with
  | nil => exact fun lo _ _ => trivial
  | cons op rest ih =>
      intro lo hchain hlo
      cases op with
      | store imgs t now =>
          rw [capturedTimes] at hchain hlo
          obtain ⟨hhead, hchain'⟩ := List.chain'_cons'.mp hchain
          exact ⟨hlo t rfl, ih t hchain' hhead⟩
      | addRing imgs t =>
          rw [capturedTimes] at hchain hlo
          obtain ⟨hhead, hchain'⟩ := List.chain'_cons'.mp hchain
          exact ⟨hlo t rfl, ih t hchain' hhead⟩
      | mark t => exact ih lo hchain hlo
      | popFirst => exact ih lo hchain hlo
      | popAll => exact ih lo hchain hlo

/-- C2: over any trace of `StoreImages` and `MarkShouldSend` calls whose
stored `captured_at` timestamps are strictly increasing, the send queue never
holds two batches with the same `captured_at`, even when the capture windows
of successive triggers overlap (trigger times are unrestricted). -/
theorem sendQueue_dedup (wsb wsa mx : Int) (ops : List BufOp)
    (hkinds : ∀ op ∈ ops, op.isStore ∨ op.isMark)
    (hincr : List.Chain' (· < ·) (capturedTimes ops)) :
    (capTimes (runOps (ImageBuffer.init wsb wsa mx) ops).toSend).Nodup := by
  have hanchor : ∃ lo, CapturedIncrFrom lo ops := by
    cases hh : (capturedTimes ops).head? with
    | none =>
        exact ⟨0, capturedIncrFrom_of_chain ops 0 hincr (by simp [hh])⟩
    | some t =>
        refine ⟨t - 1, capturedIncrFrom_of_chain ops (t - 1) hincr ?_⟩
        intro u hu
        rw [hh] at hu
        simp only [Option.mem_def, Option.some.injEq] at hu
        omega
  obtain ⟨lo, hlo⟩ := hanchor
  have inv0 : DedupInv (ImageBuffer.init wsb wsa mx) lo :=
    ⟨List.nodup_nil, List.nodup_nil, by simp [ImageBuffer.init, capTimes],
      by simp [ImageBuffer.init, capTimes]⟩
  obtain ⟨lo', inv'⟩ :=
    dedupInv_run ops (ImageBuffer.init wsb wsa mx) lo inv0 hlo
  exact inv'.sendNodup

/-- Witness for `sendQueue_dedup`: two stores at `1s` and `2s` (outside any
window), then overlapping triggers at `2s` and `2.5s` backfilling both; the
send queue ends up with the two distinct timestamps exactly once each. -/
theorem sendQueue_dedup_witness :
    ((∀ op ∈ [BufOp.store [] (1 * nanosPerSecond) (1 * nanosPerSecond),
        BufOp.store [] (2 * nanosPerSecond) (2 * nanosPerSecond),
        BufOp.mark (2 * nanosPerSecond),
        BufOp.mark (2500000000 : Int)], op.isStore ∨ op.isMark) ∧
      List.Chain' (· < ·) (capturedTimes
        [BufOp.store [] (1 * nanosPerSecond) (1 * nanosPerSecond),
         BufOp.store [] (2 * nanosPerSecond) (2 * nanosPerSecond),
         BufOp.mark (2 * nanosPerSecond),
         BufOp.mark (2500000000 : Int)]) ∧
      (capTimes (runOps (ImageBuffer.init 2 2 10)
          [BufOp.store [] (1 * nanosPerSecond) (1 * nanosPerSecond),
           BufOp.store [] (2 * nanosPerSecond) (2 * nanosPerSecond),
           BufOp.mark (2 * nanosPerSecond),
           BufOp.mark (2500000000 : Int)]).toSend) =
        [1 * nanosPerSecond, 2 * nanosPerSecond]) ∧
    (capTimes (runOps (ImageBuffer.init 2 2 10)
        [BufOp.store [] (1 * nanosPerSecond) (1 * nanosPerSecond),
         BufOp.store [] (2 * nanosPerSecond) (2 * nanosPerSecond),
         BufOp.mark (2 * nanosPerSecond),
         BufOp.mark (2500000000 : Int)]).toSend).Nodup :=
  ⟨⟨by decide,
    by norm_num [capturedTimes, List.chain'_cons, List.chain'_singleton,
      nanosPerSecond],
    by decide⟩,
    sendQueue_dedup 2 2 10 _ (by decide)
      (by norm_num [capturedTimes, List.chain'_cons, List.chain'_singleton,
        nanosPerSecond])⟩

lemma OrderInv.fromLe {ib : ImageBuffer} {lo : Int} (inv : OrderInv ib lo) :
    ib.captureFrom ≤ lo := by
  have hnsB : 0 ≤ nanosPerSecond * ib.windowSecondsBefore :=
    mul_nonneg (le_of_lt nanosPerSecond_pos) inv.wsbNonneg
  have h1 := inv.loNonneg
  have h2 := inv.fromAnchor
  omega

lemma orderInv_mark {ib : ImageBuffer} {lo t : Int} (ht : lo ≤ t)
    (inv : OrderInv ib lo) : OrderInv (ib.markShouldSend t) t := by
  have hnsB : 0 ≤ nanosPerSecond * ib.windowSecondsBefore :=
    mul_nonneg (le_of_lt nanosPerSecond_pos) inv.wsbNonneg
  have hnsA : 0 ≤ nanosPerSecond * ib.windowSecondsAfter :=
    mul_nonneg (le_of_lt nanosPerSecond_pos) inv.wsaNonneg
  have hlo0 := inv.loNonneg
  have hfle := inv.fromLe
  have hft := inv.fromTill
  have hfa := inv.fromAnchor
  rw [markShouldSend_eq]
  refine ⟨by omega, inv.wsbNonneg, inv.wsaNonneg, ?_, ?_, inv.ringSorted,
    ?_, ?_, ?_, ?_, ?_⟩
  · show newFrom ib t ≤ newTill ib t
    rw [newFrom, newTill]
    split <;> omega
  · show newFrom ib t ≤ 0 ∨
      newFrom ib t + nanosPerSecond * ib.windowSecondsBefore ≤ t
    rw [newFrom]
    split <;> omega
  · show (capTimes (ib.toSend ++ backfill ib t)).Pairwise (· ≤ ·)
    rw [capTimes_append, List.pairwise_append]
    refine ⟨inv.sendSorted,
      List.Pairwise.sublist (capTimes_backfill_sublist ib t)
        inv.ringSorted, ?_⟩
    intro m hm n hn
    obtain ⟨c, hc, rfl⟩ := mem_capTimes.mp hn
    obtain ⟨hcr, hcf, hct, hcn⟩ := mem_backfill.mp hc
    have hmtill := inv.sendTill m hm
    have hmlo := (inv.sendBounds m hm).2
    have hcmem : c.meta.capturedAt ∈ capTimes ib.ringBuffer :=
      mem_capTimes.mpr ⟨c, hcr, rfl⟩
    have hring0 := (inv.ringBounds _ hcmem).1
    have hwin := inv.ringWindow _ hcmem hcn
    rw [newFrom] at hcf
    split at hcf <;> omega
  · intro x hx
    have := inv.ringBounds x hx
    omega
  · show ∀ x ∈ capTimes (ib.toSend ++ backfill ib t), 0 ≤ x ∧ x ≤ t
    rw [capTimes_append]
    intro x hx
    rcases List.mem_append.mp hx with h | h
    · have := inv.sendBounds x h
      omega
    · obtain ⟨c, hc, rfl⟩ := mem_capTimes.mp h
      have := inv.ringBounds _
        (mem_capTimes.mpr ⟨c, (mem_backfill.mp hc).1, rfl⟩)
      omega
  · show ∀ x ∈ capTimes (ib.toSend ++ backfill ib t), x ≤ newTill ib t
    rw [capTimes_append, newTill]
    intro x hx
    rcases List.mem_append.mp hx with h | h
    · have := inv.sendBounds x h
      omega
    · obtain ⟨c, hc, rfl⟩ := mem_capTimes.mp h
      have := (mem_backfill.mp hc).2.2.1
      rw [newTill] at this
      omega
  · show ∀ s ∈ capTimes ib.ringBuffer,
      s ∉ capTimes (ib.toSend ++ backfill ib t) →
        ¬ (newFrom ib t ≤ s ∧ s ≤ newTill ib t)
    rintro s hs hsn ⟨h1, h2⟩
    obtain ⟨c, hcr, rfl⟩ := mem_capTimes.mp hs
    rw [capTimes_append] at hsn
    simp only [List.mem_append, not_or] at hsn
    exact hsn.2 (mem_capTimes.mpr
      ⟨c, mem_backfill.mpr ⟨hcr, h1, h2, hsn.1⟩, rfl⟩)

lemma orderInv_store {ib : ImageBuffer} {lo : Int} (imgs : List NamedImage)
    {t : Int} (ht : lo ≤ t) (inv : OrderInv ib lo) :
    OrderInv (ib.storeImages imgs ⟨t⟩ t) t := by
  have hnsB : 0 ≤ nanosPerSecond * ib.windowSecondsBefore :=
    mul_nonneg (le_of_lt nanosPerSecond_pos) inv.wsbNonneg
  have hlo0 := inv.loNonneg
  have hft := inv.fromTill
  have hfa := inv.fromAnchor
  by_cases hw : windowTest ib.captureFrom ib.captureTill t
  · rw [storeImages_within hw]
    rw [windowTest] at hw
    refine ⟨by omega, inv.wsbNonneg, inv.wsaNonneg, inv.fromTill, ?_,
      inv.ringSorted, ?_, ?_, ?_, ?_, ?_⟩
    · show ib.captureFrom ≤ 0 ∨
        ib.captureFrom + nanosPerSecond * ib.windowSecondsBefore ≤ t
      omega
    · show (capTimes (ib.toSend ++ [⟨imgs, ⟨t⟩⟩])).Pairwise (· ≤ ·)
      rw [capTimes_append, List.pairwise_append]
      refine ⟨inv.sendSorted, List.pairwise_singleton _ _, ?_⟩
      intro m hm n hn
      simp only [capTimes, List.map_cons, List.map_nil,
        List.mem_singleton] at hn
      have := (inv.sendBounds m hm).2
      omega
    · intro x hx
      have := inv.ringBounds x hx
      omega
    · show ∀ x ∈ capTimes (ib.toSend ++ [⟨imgs, ⟨t⟩⟩]), 0 ≤ x ∧ x ≤ t
      rw [capTimes_append]
      intro x hx
      rcases List.mem_append.mp hx with h | h
      · have := inv.sendBounds x h
        omega
      · simp only [capTimes, List.map_cons, List.map_nil,
          List.mem_singleton] at h
        omega
    · show ∀ x ∈ capTimes (ib.toSend ++ [⟨imgs, ⟨t⟩⟩]), x ≤ ib.captureTill
      rw [capTimes_append]
      intro x hx
      rcases List.mem_append.mp hx with h | h
      · exact inv.sendTill x h
      · simp only [capTimes, List.map_cons, List.map_nil,
          List.mem_singleton] at h
        omega
    · show ∀ s ∈ capTimes ib.ringBuffer,
        s ∉ capTimes (ib.toSend ++ [⟨imgs, ⟨t⟩⟩]) →
          ¬ (ib.captureFrom ≤ s ∧ s ≤ ib.captureTill)
      intro s hs hsn
      rw [capTimes_append] at hsn
      simp only [List.mem_append, not_or] at hsn
      exact inv.ringWindow s hs hsn.1
  · rw [storeImages_outside hw]
    rw [windowTest] at hw
    have hsub : (capTimes (ringPush ib.ringBuffer ⟨imgs, ⟨t⟩⟩
        ib.maxImages)).Sublist (capTimes (ib.ringBuffer ++ [⟨imgs, ⟨t⟩⟩])) :=
      List.Sublist.map _ (ringPush_sublist _ _ _)
    refine ⟨by omega, inv.wsbNonneg, inv.wsaNonneg, inv.fromTill, ?_,
      ?_, inv.sendSorted, ?_, ?_, inv.sendTill, ?_⟩
    · show ib.captureFrom ≤ 0 ∨
        ib.captureFrom + nanosPerSecond * ib.windowSecondsBefore ≤ t
      omega
    · refine List.Pairwise.sublist hsub ?_
      rw [capTimes_append, List.pairwise_append]
      refine ⟨inv.ringSorted, List.pairwise_singleton _ _, ?_⟩
      intro m hm n hn
      simp only [capTimes, List.map_cons, List.map_nil,
        List.mem_singleton] at hn
      have := (inv.ringBounds m hm).2
      omega
    · intro x hx
      have hx' := hsub.mem hx
      rw [capTimes_append] at hx'
      rcases List.mem_append.mp hx' with h | h
      · have := inv.ringBounds x h
        omega
      · simp only [capTimes, List.map_cons, List.map_nil,
          List.mem_singleton] at h
        omega
    · intro x hx
      have := inv.sendBounds x hx
      omega
    · intro s hs hsn
      show ¬ (ib.captureFrom ≤ s ∧ s ≤ ib.captureTill)
      have hs' := hsub.mem hs
      rw [capTimes_append] at hs'
      rcases List.mem_append.mp hs' with h | h
      · exact inv.ringWindow s h hsn
      · simp only [capTimes, List.map_cons, List.map_nil,
          List.mem_singleton] at h
        omega

lemma orderInv_run (ops : List BufOp) :
    ∀ (ib : ImageBuffer) (lo : Int), OrderInv ib lo →
      TimesMonoFrom lo ops → ∃ lo', OrderInv (runOps ib ops) lo' := by
  induction ops with
  | nil => exact fun ib lo inv _ => ⟨lo, inv⟩
  | cons op rest ih =>
      intro ib lo inv hmono
      cases op with
      | store imgs t now =>
          obtain ⟨rfl, ht, hrest⟩ := hmono
          exact ih _ now (orderInv_store imgs ht inv) hrest
      | mark t =>
          obtain ⟨ht, hrest⟩ := hmono
          exact ih _ t (orderInv_mark ht inv) hrest
      | addRing imgs t => exact absurd hmono id
      | popFirst => exact absurd hmono id
      | popAll => exact absurd hmono id

/-- C3 (counterexample): with `before = 5s, after = 0`, the trace
`Store(captured_at = -3s)`, `Store(captured_at = 0)`, `MarkShouldSend(1s)` has
non-decreasing time arguments, yet ends with the send queue in the order
`[0, -3s]`: the store at time `0` lands directly in the send queue because
the *initial* capture window is `[0, 0]`, and the earlier frame parked in the
ring buffer is backfilled behind it by the later trigger. -/
theorem sendQueue_ordered_counterexample :
    ((-3) * nanosPerSecond ≤ (0 : Int) ∧ (0 : Int) ≤ 1 * nanosPerSecond) ∧
    ¬ (capTimes (runOps (ImageBuffer.init 5 0 10)
        [BufOp.store [] ((-3) * nanosPerSecond) ((-3) * nanosPerSecond),
         BufOp.store [] 0 0,
         BufOp.mark (1 * nanosPerSecond)]).toSend).Pairwise (· ≤ ·) := by
  refine ⟨by norm_num [nanosPerSecond], fun h => ?_⟩
  rw [show capTimes (runOps (ImageBuffer.init 5 0 10)
      [BufOp.store [] ((-3) * nanosPerSecond) ((-3) * nanosPerSecond),
       BufOp.store [] 0 0,
       BufOp.mark (1 * nanosPerSecond)]).toSend =
      [0, (-3) * nanosPerSecond] from by decide] at h
  rcases List.pairwise_cons.mp h with ⟨h1, _⟩
  exact absurd (h1 _ (List.mem_singleton.mpr rfl))
    (by norm_num [nanosPerSecond])

/-- C3 (amended): over any trace of `StoreImages` and `MarkShouldSend` calls
whose time arguments are non-decreasing *and non-negative* (each store
receiving its batch's `captured_at` as `now`, as the background worker does),
with non-negative configured window durations, the send queue is at all
times in non-decreasing `captured_at` order.  Non-negativity (i.e. no time
argument precedes the zero-valued initial capture window) is required: see
the counterexample. -/
theorem sendQueue_ordered (wsb wsa mx : Int) (hb : 0 ≤ wsb) (ha : 0 ≤ wsa)
    (ops : List BufOp) (hmono : TimesMonoFrom 0 ops) :
    (capTimes (runOps (ImageBuffer.init wsb wsa mx) ops).toSend).Pairwise
      (· ≤ ·) := by
  have inv0 : OrderInv (ImageBuffer.init wsb wsa mx) 0 := by
    refine ⟨le_refl 0, hb, ha, le_refl 0, Or.inl (le_refl 0),
      List.Pairwise.nil, List.Pairwise.nil, ?_, ?_, ?_, ?_⟩ <;>
      simp [ImageBuffer.init, capTimes]
  obtain ⟨lo', inv'⟩ :=
    orderInv_run ops (ImageBuffer.init wsb wsa mx) 0 inv0 hmono
  exact inv'.sendSorted

/-- Witness for `sendQueue_ordered`: stores at `1s` and `2s`, a trigger at
`2s`, then a store at `2.5s` inside the window; the queue stays ordered. -/
theorem sendQueue_ordered_witness :
    ((0 : Int) ≤ 2 ∧ (0 : Int) ≤ 2 ∧
      TimesMonoFrom 0
        [BufOp.store [] (1 * nanosPerSecond) (1 * nanosPerSecond),
         BufOp.store [] (2 * nanosPerSecond) (2 * nanosPerSecond),
         BufOp.mark (2 * nanosPerSecond),
         BufOp.store [] (2500000000 : Int) (2500000000 : Int)]) ∧
    (capTimes (runOps (ImageBuffer.init 2 2 10)
        [BufOp.store [] (1 * nanosPerSecond) (1 * nanosPerSecond),
         BufOp.store [] (2 * nanosPerSecond) (2 * nanosPerSecond),
         BufOp.mark (2 * nanosPerSecond),
         BufOp.store [] (2500000000 : Int) (2500000000 : Int)]).toSend).Pairwise
      (· ≤ ·) :=
  ⟨⟨by decide, by decide, by decide⟩,
    sendQueue_ordered 2 2 10 (by decide) (by decide) _ (by decide)⟩

/-- C8 (counterexample): on a buffer state whose `captureFrom` exceeds its
`captureTill`, `IsWithinCaptureWindow` answers true at `now = captureFrom`
although `captureFrom ≤ now ≤ captureTill` fails, so the claimed equivalence
does not hold for every buffer state. -/
theorem isWithinCaptureWindow_iff_counterexample :
    (ImageBuffer.isWithinCaptureWindow
        { ringBuffer := [], toSend := [], captureFrom := 5, captureTill := 3,
          windowSecondsBefore := 0, windowSecondsAfter := 1, maxImages := 4 }
        5) = true ∧
    ¬ ((5 : Int) ≤ 5 ∧ (5 : Int) ≤ 3) := by
  decide

/-- C8 (amended): whenever `captureFrom ≤ captureTill` — which holds in every
state reachable with non-decreasing, non-negative times, cf. C9 —
`IsWithinCaptureWindow now` is true exactly when
`captureFrom ≤ now ≤ captureTill`, both bounds inclusive. -/
theorem isWithinCaptureWindow_iff (ib : ImageBuffer) (now : Int)
    (h : ib.captureFrom ≤ ib.captureTill) :
    ib.isWithinCaptureWindow now = true ↔
      ib.captureFrom ≤ now ∧ now ≤ ib.captureTill := by
  simp only [ImageBuffer.isWithinCaptureWindow, windowTest, decide_eq_true_eq]
  omega

/-- Witness for `isWithinCaptureWindow_iff` at `from = 1 ≤ till = 3`,
`now = 2`. -/
theorem isWithinCaptureWindow_iff_witness :
    (1 : Int) ≤ 3 ∧
    (ImageBuffer.isWithinCaptureWindow
        { ringBuffer := [], toSend := [], captureFrom := 1, captureTill := 3,
          windowSecondsBefore := 0, windowSecondsAfter := 1, maxImages := 4 }
        2 = true ↔ (1 : Int) ≤ 2 ∧ (2 : Int) ≤ 3) :=
  ⟨by decide, isWithinCaptureWindow_iff _ 2 (by decide)⟩

/-- C1 (counterexample): with `before = after = 1s`, a trigger at `t₁ = 10s`
opens the window `[9s, 11s]`; a second trigger at `t₂ = 5s` finds the window
still active (`captureTill = 11s` is not before `5s`), keeps `captureFrom`,
but sets `captureTill` to `t₂ + after = 6s`, not to
`max(old captureTill, t₂ + after) = 11s` as claimed. -/
theorem markShouldSend_extend_counterexample :
    ¬ ((ImageBuffer.init 1 1 10).markShouldSend
          (10 * nanosPerSecond)).captureTill < 5 * nanosPerSecond ∧
    (((ImageBuffer.init 1 1 10).markShouldSend
          (10 * nanosPerSecond)).markShouldSend
        (5 * nanosPerSecond)).captureFrom =
      ((ImageBuffer.init 1 1 10).markShouldSend
          (10 * nanosPerSecond)).captureFrom ∧
    (((ImageBuffer.init 1 1 10).markShouldSend
          (10 * nanosPerSecond)).markShouldSend
        (5 * nanosPerSecond)).captureTill ≠
      max ((ImageBuffer.init 1 1 10).markShouldSend
            (10 * nanosPerSecond)).captureTill
        (5 * nanosPerSecond + nanosPerSecond * 1) := by
  decide

/-- C1 (amended): `MarkShouldSend t` sets `captureFrom = t - before` exactly
when the old window had expired (`captureTill < t`) and keeps it otherwise,
and sets `captureTill = t + after` unconditionally; the latter equals
`max(old captureTill, t + after)` exactly under the extra assumption
`old captureTill ≤ t + after` (true in particular whenever trigger times are
non-decreasing, making the original claim valid in that regime). -/
theorem markShouldSend_window (ib : ImageBuffer) (t : Int) :
    ((ib.markShouldSend t).captureFrom =
        if ib.captureTill < t then
          t - nanosPerSecond * ib.windowSecondsBefore
        else ib.captureFrom) ∧
    ((ib.markShouldSend t).captureTill =
        t + nanosPerSecond * ib.windowSecondsAfter) ∧
    (ib.captureTill ≤ t + nanosPerSecond * ib.windowSecondsAfter →
      (ib.markShouldSend t).captureTill =
        max ib.captureTill (t + nanosPerSecond * ib.windowSecondsAfter)) := by
  refine ⟨rfl, rfl, fun h => ?_⟩
  simp only [markShouldSend_eq, newTill]
  omega

/-- Witness for `markShouldSend_window` on a fresh trigger at `t = 10s` over
the initial buffer with `before = after = 1s`. -/
theorem markShouldSend_window_witness :
    (((ImageBuffer.init 1 1 10).markShouldSend
          (10 * nanosPerSecond)).captureFrom =
        if (ImageBuffer.init 1 1 10).captureTill < 10 * nanosPerSecond then
          10 * nanosPerSecond - nanosPerSecond * 1
        else (ImageBuffer.init 1 1 10).captureFrom) ∧
    (((ImageBuffer.init 1 1 10).markShouldSend
          (10 * nanosPerSecond)).captureTill =
        10 * nanosPerSecond + nanosPerSecond * 1) ∧
    ((ImageBuffer.init 1 1 10).captureTill ≤
        10 * nanosPerSecond + nanosPerSecond * 1 →
      ((ImageBuffer.init 1 1 10).markShouldSend
          (10 * nanosPerSecond)).captureTill =
        max (ImageBuffer.init 1 1 10).captureTill
          (10 * nanosPerSecond + nanosPerSecond * 1)) := by
  have h := markShouldSend_window (ImageBuffer.init 1 1 10)
    (10 * nanosPerSecond)
  simpa using h

lemma anyClassificationsMatch_nonempty {m : ThresholdMap}
    {cs : List Classification}
    (h : (anyClassificationsMatch m cs).isSome = true) : m.isEmpty = false := by
  unfold anyClassificationsMatch at h
  rw [Option.isSome_iff_exists] at h
  obtain ⟨c, hc⟩ := h
  have hmatch := List.find?_some hc
  cases m with
  | nil => simp [classificationMatches, lookupThreshold] at hmatch
  | cons p rest => rfl

lemma anyDetectionsMatch_nonempty {m : ThresholdMap} {ds : List Detection}
    (h : (anyDetectionsMatch m ds).isSome = true) : m.isEmpty = false := by
  unfold anyDetectionsMatch at h
  rw [Option.isSome_iff_exists] at h
  obtain ⟨d, hd⟩ := h
  have hmatch := List.find?_some hd
  cases m with
  | nil => simp [detectionMatches, lookupThreshold] at hmatch
  | cons p rest => rfl

/-- If some inhibitor in `l` matches, the inhibitor loop rejects at the first
matching one: the result is `.inl` with the incoming log extended only by
queries to the non-matching inhibitors before it and to the matching one. -/
lemma runInhibitors_match (env : FilteredCameraEnv) (img : NamedImage) :
    ∀ (l : List String) (log : List VisionCall),
      (∃ vs ∈ l, inhibitorMatches env img vs) →
      ∃ pre v post extra,
        l = pre ++ v :: post ∧
        (∀ u ∈ pre, ¬ inhibitorMatches env img u) ∧
        inhibitorMatches env img v ∧
        runInhibitors env img l log = .inl (log ++ extra) ∧
        (∀ c ∈ extra, c.inhibit = true ∧ c.service ∈ pre ++ [v]) := by
  intro l
  induction l with
  | nil => intro log h; simp at h
  | cons vs rest ih =>
      intro log h
      by_cases hm : inhibitorMatches env img vs
      · by_cases hc : (anyClassificationsMatch
            (env.inhibitedClassifications vs)
            (env.classifyResults img vs)).isSome = true
        · have hne := anyClassificationsMatch_nonempty hc
          refine ⟨[], vs, rest, [⟨vs, .classify, true⟩], rfl, by simp, hm,
            ?_, by simp⟩
          simp [runInhibitors, hne, hc]
        · have hd : (anyDetectionsMatch (env.inhibitedObjects vs)
              (env.detectResults img vs)).isSome = true := by
            rcases hm with hm | hm
            · exact absurd hm hc
            · exact hm
          have hne := anyDetectionsMatch_nonempty hd
          by_cases hce : (env.inhibitedClassifications vs).isEmpty = true
          · refine ⟨[], vs, rest, [⟨vs, .detect, true⟩], rfl, by simp, hm,
              ?_, by simp⟩
            simp [runInhibitors, hce, hc, hd, hne]
          · refine ⟨[], vs, rest,
              [⟨vs, .classify, true⟩, ⟨vs, .detect, true⟩], rfl, by simp, hm,
              ?_, by simp⟩
            simp [runInhibitors, hce, hc, hd, hne]
      · have hrest : ∃ u ∈ rest, inhibitorMatches env img u := by
          rcases h with ⟨u, hu, hum⟩
          rcases List.mem_cons.mp hu with rfl | hu'
          · exact absurd hum hm
          · exact ⟨u, hu', hum⟩
        have hc : (anyClassificationsMatch (env.inhibitedClassifications vs)
            (env.classifyResults img vs)).isSome = false := by
          rw [Bool.eq_false_iff]
          intro h'
          exact hm (Or.inl h')
        have hd : (anyDetectionsMatch (env.inhibitedObjects vs)
            (env.detectResults img vs)).isSome = false := by
          rw [Bool.eq_false_iff]
          intro h'
          exact hm (Or.inr h')
        by_cases hce : (env.inhibitedClassifications vs).isEmpty = true <;>
          by_cases hoe : (env.inhibitedObjects vs).isEmpty = true
        · obtain ⟨pre, v, post, extra, heq, hpre, hv, hrun, hcalls⟩ :=
            ih log hrest
          refine ⟨vs :: pre, v, post, extra, by simp [heq], ?_, hv, ?_, ?_⟩
          · intro u hu
            rcases List.mem_cons.mp hu with rfl | hu'
            · exact hm
            · exact hpre u hu'
          · simp only [runInhibitors, hce, hoe, hc, hd]
            simpa using hrun
          · intro c hcmem
            obtain ⟨h1, h2⟩ := hcalls c hcmem
            exact ⟨h1, by simpa using Or.inr (by simpa using h2)⟩
        · obtain ⟨pre, v, post, extra, heq, hpre, hv, hrun, hcalls⟩ :=
            ih (log ++ [⟨vs, .detect, true⟩]) hrest
          refine ⟨vs :: pre, v, post, ⟨vs, .detect, true⟩ :: extra,
            by simp [heq], ?_, hv, ?_, ?_⟩
          · intro u hu
            rcases List.mem_cons.mp hu with rfl | hu'
            · exact hm
            · exact hpre u hu'
          · simp only [runInhibitors, hce, hoe, hc, hd]
            simpa using hrun
          · intro c hcmem
            rcases List.mem_cons.mp hcmem with rfl | hcmem'
            · exact ⟨rfl, by simp⟩
            · obtain ⟨h1, h2⟩ := hcalls c hcmem'
              exact ⟨h1, by simpa using Or.inr (by simpa using h2)⟩
        · obtain ⟨pre, v, post, extra, heq, hpre, hv, hrun, hcalls⟩ :=
            ih (log ++ [⟨vs, .classify, true⟩]) hrest
          refine ⟨vs :: pre, v, post, ⟨vs, .classify, true⟩ :: extra,
            by simp [heq], ?_, hv, ?_, ?_⟩
          · intro u hu
            rcases List.mem_cons.mp hu with rfl | hu'
            · exact hm
            · exact hpre u hu'
          · simp only [runInhibitors, hce, hoe, hc, hd]
            simpa using hrun
          · intro c hcmem
            rcases List.mem_cons.mp hcmem with rfl | hcmem'
            · exact ⟨rfl, by simp⟩
            · obtain ⟨h1, h2⟩ := hcalls c hcmem'
              exact ⟨h1, by simpa using Or.inr (by simpa using h2)⟩
        · obtain ⟨pre, v, post, extra, heq, hpre, hv, hrun, hcalls⟩ :=
            ih (log ++ [⟨vs, .classify, true⟩] ++ [⟨vs, .detect, true⟩]) hrest
          refine ⟨vs :: pre, v, post,
            ⟨vs, .classify, true⟩ :: ⟨vs, .detect, true⟩ :: extra,
            by simp [heq], ?_, hv, ?_, ?_⟩
          · intro u hu
            rcases List.mem_cons.mp hu with rfl | hu'
            · exact hm
            · exact hpre u hu'
          · simp only [runInhibitors, hce, hoe, hc, hd]
            simpa using hrun
          · intro c hcmem
            rcases List.mem_cons.mp hcmem with rfl | hcmem'
            · exact ⟨rfl, by simp⟩
            · rcases List.mem_cons.mp hcmem' with rfl | hcmem''
              · exact ⟨rfl, by simp⟩
              · obtain ⟨h1, h2⟩ := hcalls c hcmem''
                exact ⟨h1, by simpa using Or.inr (by simpa using h2)⟩

/-- If no inhibitor in `l` matches, the inhibitor loop falls through,
extending the log only with inhibitor queries. -/
lemma runInhibitors_no_match (env : FilteredCameraEnv) (img : NamedImage) :
    ∀ (l : List String) (log : List VisionCall),
      (∀ vs ∈ l, ¬ inhibitorMatches env img vs) →
      ∃ extra, runInhibitors env img l log = .inr (log ++ extra) ∧
        (∀ c ∈ extra, c.inhibit = true ∧ c.service ∈ l) := by
  intro l
  induction l with
  | nil => intro log _; exact ⟨[], by simp [runInhibitors], by simp⟩
  | cons vs rest ih =>
      intro log h
      have hm := h vs (List.mem_cons_self vs rest)
      have hc : (anyClassificationsMatch (env.inhibitedClassifications vs)
          (env.classifyResults img vs)).isSome = false := by
        rw [Bool.eq_false_iff]
        intro h'
        exact hm (Or.inl h')
      have hd : (anyDetectionsMatch (env.inhibitedObjects vs)
          (env.detectResults img vs)).isSome = false := by
        rw [Bool.eq_false_iff]
        intro h'
        exact hm (Or.inr h')
      have hrest : ∀ u ∈ rest, ¬ inhibitorMatches env img u :=
        fun u hu => h u (List.mem_cons_of_mem _ hu)
      by_cases hce : (env.inhibitedClassifications vs).isEmpty = true <;>
        by_cases hoe : (env.inhibitedObjects vs).isEmpty = true
      · obtain ⟨extra, hrun, hcalls⟩ := ih log hrest
        refine ⟨extra, ?_, fun c hcm => ⟨(hcalls c hcm).1,
          List.mem_cons_of_mem _ (hcalls c hcm).2⟩⟩
        simp only [runInhibitors, hce, hoe, hc, hd]
        simpa using hrun
      · obtain ⟨extra, hrun, hcalls⟩ := ih (log ++ [⟨vs, .detect, true⟩]) hrest
        refine ⟨⟨vs, .detect, true⟩ :: extra, ?_, ?_⟩
        · simp only [runInhibitors, hce, hoe, hc, hd]
          simpa using hrun
        · intro c hcm
          rcases List.mem_cons.mp hcm with rfl | hcm'
          · exact ⟨rfl, List.mem_cons_self _ _⟩
          · exact ⟨(hcalls c hcm').1, List.mem_cons_of_mem _ (hcalls c hcm').2⟩
      · obtain ⟨extra, hrun, hcalls⟩ :=
          ih (log ++ [⟨vs, .classify, true⟩]) hrest
        refine ⟨⟨vs, .classify, true⟩ :: extra, ?_, ?_⟩
        · simp only [runInhibitors, hce, hoe, hc, hd]
          simpa using hrun
        · intro c hcm
          rcases List.mem_cons.mp hcm with rfl | hcm'
          · exact ⟨rfl, List.mem_cons_self _ _⟩
          · exact ⟨(hcalls c hcm').1, List.mem_cons_of_mem _ (hcalls c hcm').2⟩
      · obtain ⟨extra, hrun, hcalls⟩ :=
          ih (log ++ [⟨vs, .classify, true⟩] ++ [⟨vs, .detect, true⟩]) hrest
        refine ⟨⟨vs, .classify, true⟩ :: ⟨vs, .detect, true⟩ :: extra, ?_, ?_⟩
        · simp only [runInhibitors, hce, hoe, hc, hd]
          simpa using hrun
        · intro c hcm
          rcases List.mem_cons.mp hcm with rfl | hcm'
          · exact ⟨rfl, List.mem_cons_self _ _⟩
          · rcases List.mem_cons.mp hcm' with rfl | hcm''
            · exact ⟨rfl, List.mem_cons_self _ _⟩
            · exact ⟨(hcalls c hcm'').1,
                List.mem_cons_of_mem _ (hcalls c hcm'').2⟩

/-- C5: if any configured inhibitor's classification or detection thresholds
match the frame, `shouldSend` answers false regardless of the acceptors'
configuration and results; every vision-service query it issued targets an
inhibitor (no acceptor is evaluated), and no query targets any inhibitor
after the first matching one. -/
theorem shouldSend_inhibitor_priority (env : FilteredCameraEnv)
    (img : NamedImage) (now : Int) (vs : String)
    (hvs : vs ∈ env.inhibitors) (hm : inhibitorMatches env img vs) :
    (shouldSend env img now).1 = false ∧
    (∀ c ∈ (shouldSend env img now).2,
      c.inhibit = true ∧ c.service ∈ env.inhibitors) ∧
    ∃ pre v post, env.inhibitors = pre ++ v :: post ∧
      (∀ u ∈ pre, ¬ inhibitorMatches env img u) ∧
      inhibitorMatches env img v ∧
      ∀ c ∈ (shouldSend env img now).2, c.service ∈ pre ++ [v] := by
  obtain ⟨pre, v, post, extra, heq, hpre, hv, hrun, hcalls⟩ :=
    runInhibitors_match env img env.inhibitors [] ⟨vs, hvs, hm⟩
  have hss : shouldSend env img now = (false, extra) := by
    unfold shouldSend
    rw [hrun]
    simp
  rw [hss]
  refine ⟨rfl, ?_, pre, v, post, heq, hpre, hv,
    fun c hc => (hcalls c hc).2⟩
  intro c hc
  obtain ⟨h1, h2⟩ := hcalls c hc
  refine ⟨h1, ?_⟩
  rw [heq]
  rcases List.mem_append.mp h2 with h3 | h3
  · exact List.mem_append.mpr (Or.inl h3)
  · simp only [List.mem_singleton] at h3
    subst h3
    exact List.mem_append.mpr (Or.inr (List.mem_cons_self _ _))

/-- Witness for `shouldSend_inhibitor_priority`: the inhibitor (threshold 70)
matches the frame (score 75) although the acceptor (threshold 60) would
also match — the frame is rejected. -/
theorem shouldSend_inhibitor_priority_witness :
    ("inhibitor" ∈ sampleEnv.inhibitors ∧
      inhibitorMatches sampleEnv ⟨"cam"⟩ "inhibitor") ∧
    (shouldSend sampleEnv ⟨"cam"⟩ 0).1 = false :=
  ⟨⟨by decide, by decide⟩,
    (shouldSend_inhibitor_priority sampleEnv ⟨"cam"⟩ 0 "inhibitor"
      (by decide) (by decide)).1⟩

/-- C7: with no acceptor configured and no inhibitor matching the frame,
`shouldSend` answers true. -/
theorem shouldSend_default_accept (env : FilteredCameraEnv)
    (img : NamedImage) (now : Int)
    (hacc : env.otherVisionServices = [])
    (hinh : ∀ vs ∈ env.inhibitors, ¬ inhibitorMatches env img vs) :
    (shouldSend env img now).1 = true := by
  obtain ⟨extra, hrun, _⟩ :=
    runInhibitors_no_match env img env.inhibitors [] hinh
  unfold shouldSend
  rw [hrun, hacc]
  simp [runAcceptors]

/-- Witness for `shouldSend_default_accept`: no acceptors, the only
inhibitor's threshold (90) is above the frame's score (75), the frame is
accepted. -/
theorem shouldSend_default_accept_witness :
    (sampleEnvNoAcceptors.otherVisionServices = [] ∧
      (∀ vs ∈ sampleEnvNoAcceptors.inhibitors,
        ¬ inhibitorMatches sampleEnvNoAcceptors ⟨"cam"⟩ vs)) ∧
    (shouldSend sampleEnvNoAcceptors ⟨"cam"⟩ 0).1 = true :=
  ⟨⟨by decide, by decide⟩,
    shouldSend_default_accept sampleEnvNoAcceptors ⟨"cam"⟩ 0 (by decide)
      (by decide)⟩

/-- C6 (counterexample): with thresholds `{cat: 9, *: 1}` and a `cat` result
scoring `5`, the exact-label entry is present and not exceeded, so under the
claimed rule (wildcard only applies when no exact label matches the result's
label) there is no match — yet `classificationMatches` reports a match via
the wildcard entry. -/
theorem classificationMatches_counterexample :
    classificationMatches [("cat", 9), ("*", 1)] ⟨"cat", 5⟩ = true ∧
    lookupThreshold [("cat", 9), ("*", 1)] "cat" = some 9 ∧
    ¬ ((9 : ℚ) < 5) := by
  decide

/-- C6 (amended): `classificationMatches` / `detectionMatches` match exactly
when the score strictly exceeds the exact-label threshold (when present), or
strictly exceeds the wildcard `"*"` threshold (when present) — the wildcard
is consulted even when an exact-label entry exists but was not exceeded;
equality with a threshold never matches. -/
theorem thresholdMatches_iff (m : ThresholdMap) (c : Classification)
    (d : Detection) :
    (classificationMatches m c = true ↔
      (∃ mn, lookupThreshold m c.label = some mn ∧ mn < c.score) ∨
      (∃ mn, lookupThreshold m "*" = some mn ∧ mn < c.score)) ∧
    (detectionMatches m d = true ↔
      (∃ mn, lookupThreshold m d.label = some mn ∧ mn < d.score) ∨
      (∃ mn, lookupThreshold m "*" = some mn ∧ mn < d.score)) := by
  constructor
  · unfold classificationMatches
    cases h1 : lookupThreshold m c.label <;>
      cases h2 : lookupThreshold m "*" <;> simp [h1, h2]
  · unfold detectionMatches
    cases h1 : lookupThreshold m d.label <;>
      cases h2 : lookupThreshold m "*" <;> simp [h1, h2]

/-- C10: a request not marked as coming from the data manager (neither via
the context nor via `extra`) is answered with exactly the underlying
camera's images and metadata — no renaming — and the buffer (ring buffer,
send queue and capture window) is returned unchanged. -/
theorem images_not_from_data_mgmt (env : FilteredCameraEnv)
    (ib : ImageBuffer) (singleImageMode : Bool)
    (imgs : List NamedImage) (meta : ResponseMetadata)
    (ctxFromDM extraFromDM : Bool)
    (h : IsFromDataMgmt ctxFromDM extraFromDM = false) :
    images env ib ctxFromDM extraFromDM singleImageMode (.ok (imgs, meta)) =
      (.ok (imgs, meta), ib) := by
  simp [images, h]

/-- Witness for `images_not_from_data_mgmt` on a concrete one-image request
with both data-manager markers false. -/
theorem images_not_from_data_mgmt_witness :
    IsFromDataMgmt false false = false ∧
    images
        { inhibitors := [], otherVisionServices := []
          inhibitedClassifications := fun _ => []
          inhibitedObjects := fun _ => []
          acceptedClassifications := fun _ => []
          acceptedObjects := fun _ => []
          classifyResults := fun _ _ => []
          detectResults := fun _ _ => [] }
        (ImageBuffer.init 1 1 10) false false true
        (.ok ([⟨"cam"⟩], ⟨7⟩)) =
      (.ok ([⟨"cam"⟩], ⟨7⟩), ImageBuffer.init 1 1 10) :=
  ⟨rfl, images_not_from_data_mgmt _ _ _ _ _ _ _ rfl⟩

end FilteredCamera
